import Mathlib

/-!
Verification of the EPUB → Markdown conversion pipeline of `epub_to_md.py`.

The development shallowly embeds the pure content of `extract_content_from_epub`
and `convert_html_to_markdown` (src/epub_to_md.py).  XML parsing and the
filesystem are abstracted: an `Epub` value carries the data that the Python code
obtains by parsing `META-INF/container.xml` and the OPF package document, and
"writes" are collected in a result record instead of hitting a disk.  The
external `html2text` renderer is stood in for by a simple deterministic
rendering; none of the verified claims depend on its internals, only on how the
script transforms the parsed tree before rendering and the produced fragment
strings afterwards.
-/

namespace EpubToMd

/-- Python dict membership/access keyed by strings, kept in insertion order
(iteration order of a CPython dict).  `dlookup` models `k in d` / `d[k]`. -/
def dlookup {α : Type} : List (String × α) → String → Option α
  | [], _ => none
  | (k₀, v₀) :: rest, k => if k₀ = k then some v₀ else dlookup rest k

/-- Python dict assignment `d[k] = v`: replaces the value in place when the key
exists (keeping its position), otherwise appends a new binding. -/
def dinsert {α : Type} : List (String × α) → String → α → List (String × α)
  | [], k, v => [(k, v)]
  | (k₀, v₀) :: rest, k, v =>
      if k₀ = k then (k, v) :: rest else (k₀, v₀) :: dinsert rest k v

/-- Model of `os.path.basename`: the part of the path after the last `/`
(scanning the characters, restarting the accumulator at every separator). -/
def basename (s : String) : String :=
  String.mk (s.data.foldl (fun acc c => if c = '/' then [] else acc ++ [c]) [])

/-- Model of Python `str.startswith` on the character lists: does `p` occur at
the beginning of `s`. -/
def startsWithChars : List Char → List Char → Bool
  | _, [] => true
  | [], _ => false
  | c :: cs, p :: ps => (c = p) && startsWithChars cs ps

def strStartsWith (s p : String) : Bool := startsWithChars s.data p.data

/-- Split a basename's characters at its last dot, if any. -/
def splitLastDot : List Char → Option (List Char × List Char)
  | [] => none
  | c :: cs =>
      match splitLastDot cs with
      | some (pre, suf) => some (c :: pre, suf)
      | none => if c = '.' then some ([], '.' :: cs) else none

/-- The extension part of `os.path.splitext`: the suffix of the basename from
its last dot, except that a basename consisting of leading dots only up to that
dot (e.g. `.bashrc`, `...`) has no extension (CPython's `_splitext` rule). -/
def splitextExt (s : String) : String :=
  match splitLastDot (basename s).data with
  | none => ""
  | some (pre, suf) => if pre.any (fun c => c ≠ '.') then String.mk suf else ""

/-- Model of `os.path.join(opf_dir, href)` as used on line 237/308: `opf_dir` is either
empty or ends with `/` (lines 191-193), and hrefs are archive-relative. -/
def joinPath (d h : String) : String := if d = "" then h else d ++ h

/-- Model of `os.path.join(image_dir, name)` (line 242): the directory has no trailing
slash, so the join inserts one. -/
def joinDir (d h : String) : String := if d = "" then h else d ++ "/" ++ h

theorem dlookup_dinsert {α : Type} (d : List (String × α)) (k k' : String) (v : α) :
    dlookup (dinsert d k v) k' = if k = k' then some v else dlookup d k' := by
  induction d with
  | nil =>
      by_cases h : k = k' <;> simp [dinsert, dlookup, h]
  | cons p rest ih =>
      obtain ⟨k₀, v₀⟩ := p
      by_cases h₀ : k₀ = k
      · subst h₀
        by_cases h : k₀ = k' <;> simp [dinsert, dlookup, h]
      · simp only [dinsert, if_neg h₀]
        by_cases h : k₀ = k'
        · subst h
          have : ¬ k = k₀ := fun hk => h₀ hk.symm
          simp [dlookup, this]
        · simp [dlookup, h, ih]

theorem dlookup_append {α : Type} (d₁ d₂ : List (String × α)) (k : String) :
    dlookup (d₁ ++ d₂) k =
      match dlookup d₁ k with
      | some v => some v
      | none => dlookup d₂ k := by
  induction d₁ with
  | nil => simp [dlookup]
  | cons p rest ih =>
      obtain ⟨k₀, v₀⟩ := p
      by_cases h : k₀ = k <;> simp [dlookup, h, ih]

theorem dinsert_eq_append {α : Type} (d : List (String × α)) (k : String) (v : α)
    (h : dlookup d k = none) : dinsert d k v = d ++ [(k, v)] := by
  induction d with
  | nil => simp [dinsert]
  | cons p rest ih =>
      obtain ⟨k₀, v₀⟩ := p
      by_cases h₀ : k₀ = k
      · subst h₀
        simp [dlookup] at h
      · simp [dlookup, h₀] at h
        simp [dinsert, h₀, ih h]

/-! ## Data model

`ManifestItem` is one `<item>` of the OPF manifest (attributes `id`, `href`,
`media-type`; `media-type` may be absent, which Python sees as `None`).
`Node` is the abstraction of a parsed content document: the pipeline only
inspects `img` tags (their `src`) and heading tags, so a document is a flat
document-ordered list of images, headings and other ("para") elements; an
`img` whose `src` attribute is absent or empty is modelled by `src = ""`
(both are falsy for the `if src:` test on line 317). -/

structure ManifestItem where
  id : String
  href : String
  mediaType : Option String
deriving DecidableEq, Repr

inductive Node where
  | img (src : String)
  | heading (level : Nat) (txt : String)
  | para (txt : String)
deriving DecidableEq, Repr

/-- The archive together with the data the script obtains by parsing
`META-INF/container.xml` and the OPF package document (lines 180-215).
`containerPresent` records whether the entry `META-INF/container.xml` exists
(its absence makes `epub.read` raise `KeyError`, line 182); `title`/`author`
are already `""` when the metadata element is absent or has empty text
(lines 201-210); `docEntries` maps archive paths to parsed content documents
and `imageEntries` maps archive paths to image bytes, a missing path raising
`KeyError` from `epub.read`. -/
structure Epub where
  containerPresent : Bool
  opfDir : String
  title : String
  author : String
  manifest : List ManifestItem
  spine : List String
  docEntries : List (String × List Node)
  imageEntries : List (String × List Nat)
deriving DecidableEq, Repr

/-- Line 226: `media_type in ['application/xhtml+xml', 'text/html']`. -/
def isContentMT (mt : String) : Bool :=
  mt = "application/xhtml+xml" || mt = "text/html"

abbrev Dict := List (String × String)

/-- The manifest loop of lines 221-229.  A `media-type` of `None` fails the
list-membership test and then raises `AttributeError` at
`media_type.startswith('image/')`; the exception escapes to the handler on
line 301, modelled by `none`. -/
def classifyGo : List ManifestItem → Dict → Dict → Option (Dict × Dict)
  | [], c, im => some (c, im)
  | it :: rest, c, im =>
      match it.mediaType with
      | none => none
      | some mt =>
          if isContentMT mt then classifyGo rest (dinsert c it.id it.href) im
          else if strStartsWith mt "image/" then classifyGo rest c (dinsert im it.id it.href)
          else classifyGo rest c im

/-- The dicts `content_items` and `image_items` built from the manifest (lines 218-229). -/
def classifyItems (items : List ManifestItem) : Option (Dict × Dict) :=
  classifyGo items [] []

/-- Line 241: `new_image_name = f"{image_id}{ext}"` with `ext` from
`os.path.splitext(image_href)` (line 239). -/
def new_image_name (image_id image_href : String) : String :=
  image_id ++ splitextExt image_href

/-- The image-saving loop of lines 234-257.  Each iteration opens
`save_path` for writing (creating the file) and then reads the archive entry;
when the entry is missing `epub.read` raises inside the per-image
`try`/`except`, leaving a created-but-empty file (`none` in the write list)
and adding no map entries, and the loop continues.  On success the bytes are
recorded and the two rename-map entries of lines 252 and 255 are inserted,
basename first. -/
def extractImagesGo (e : Epub) (imageDir mdImgDir : String) :
    Dict → List (String × Option (List Nat)) → Dict →
      List (String × Option (List Nat)) × Dict
  | [], ws, m => (ws, m)
  | (image_id, image_href) :: rest, ws, m =>
      match dlookup e.imageEntries (joinPath e.opfDir image_href) with
      | some bs =>
          extractImagesGo e imageDir mdImgDir rest
            (ws ++ [(joinDir imageDir (new_image_name image_id image_href), some bs)])
            (dinsert
              (dinsert m (basename image_href)
                (mdImgDir ++ "/" ++ new_image_name image_id image_href))
              image_href (mdImgDir ++ "/" ++ new_image_name image_id image_href))
      | none =>
          extractImagesGo e imageDir mdImgDir rest
            (ws ++ [(joinDir imageDir (new_image_name image_id image_href), none)]) m

/-- The rename map `image_map` and the saved image files produced from `image_items`
(lines 231-257). -/
def extractImages (e : Epub) (imageDir mdImgDir : String) (items : Dict) :
    List (String × Option (List Nat)) × Dict :=
  extractImagesGo e imageDir mdImgDir items [] []

/-! ## Content conversion (`convert_html_to_markdown`, lines 305-354) -/

/-- The `src` rewrite of lines 315-325: skip a falsy `src`; otherwise try the
literal `src` as a map key, then its basename, else leave it unchanged. -/
def rewriteSrc (image_map : Dict) (src : String) : String :=
  if src ≠ "" then
    if (dlookup image_map src).isSome then (dlookup image_map src).getD src
    else
      if (dlookup image_map (basename src)).isSome then
        (dlookup image_map (basename src)).getD src
      else src
  else src

def rewriteNode (image_map : Dict) : Node → Node
  | Node.img src => Node.img (rewriteSrc image_map src)
  | Node.heading lv t => Node.heading lv t
  | Node.para t => Node.para t

/-- The `soup.find_all('img')` loop (lines 315-325) applied to a document. -/
def processImgs (image_map : Dict) (d : List Node) : List Node :=
  d.map (rewriteNode image_map)

/-- The heading loop of lines 328-333: enumerate the document's headings in
document order and insert an empty `<p>` immediately before each one whose
per-call index `i` satisfies `i > 0`. -/
def addHeadingBlanks : List Node → Nat → List Node
  | [], _ => []
  | Node.img s :: rest, i => Node.img s :: addHeadingBlanks rest i
  | Node.para t :: rest, i => Node.para t :: addHeadingBlanks rest i
  | Node.heading lv t :: rest, i =>
      (if 0 < i then [Node.para "", Node.heading lv t] else [Node.heading lv t]) ++
        addHeadingBlanks rest (i + 1)

/-- One call of `convert_html_to_markdown` starts its heading enumeration at 0. -/
def headingPassDoc (d : List Node) : List Node := addHeadingBlanks d 0

def isHeading : Node → Bool
  | Node.heading _ _ => true
  | _ => false

def headingCount (l : List Node) : Nat := (l.filter isHeading).length

/-- Stand-in for the external `html2text` conversion (`h2t.handle`, line 337,
configured on lines 166-176): a fixed deterministic rendering of the tree.
`html2text` renders an `img` without alt text as a bare `![](src)` reference. -/
def renderNode : Node → String
  | Node.img src => "![](" ++ src ++ ")"
  | Node.heading lv t => String.mk (List.replicate lv '#') ++ " " ++ t
  | Node.para t => t

def renderDoc (d : List Node) : String :=
  String.intercalate "\n\n" (d.map renderNode)

/-! ### Post-processing regexes (lines 341-347) -/

/-- Emit a maximal newline run as the substitution of line 341 leaves it:
runs of three or more newlines become exactly two. -/
def emitRun (n : Nat) : List Char :=
  if 3 ≤ n then ['\n', '\n'] else List.replicate n '\n'

/-- Scan the text accumulating the current newline-run length `n`; a maximal
run is emitted through `emitRun` when a non-newline character or the end of the
text is reached. -/
def collapseGo : List Char → Nat → List Char
  | [], n => emitRun n
  | c :: cs, n =>
      if c = '\n' then collapseGo cs (n + 1) else emitRun n ++ c :: collapseGo cs 0

/-- Line 341: collapse every run of three or more consecutive newlines to two. -/
def collapseBlankLinesStr (s : String) : String := String.mk (collapseGo s.data 0)

/-- Try to match `!\[\]\(([^)]+)\)` at the head of the text, returning the
captured group and the rest after the match. -/
def matchBareImg : List Char → Option (List Char × List Char)
  | '!' :: '[' :: ']' :: '(' :: rest =>
      let inner := rest.takeWhile (fun c => c ≠ ')')
      match inner, rest.dropWhile (fun c => c ≠ ')') with
      | _ :: _, ')' :: tail => some (inner, tail)
      | _, _ => none
  | _ => none

/-- Leftmost match of the bare-image pattern: text before the match, the
captured reference, and the text after the match. -/
def findBareImg : List Char → Option (List Char × List Char × List Char)
  | [] => none
  | c :: cs =>
      match matchBareImg (c :: cs) with
      | some (inner, tail) => some ([], inner, tail)
      | none =>
          match findBareImg cs with
          | some (pre, inner, tail) => some (c :: pre, inner, tail)
          | none => none

/-- Repeated leftmost replacement for line 344; every match consumes at least
six characters, so `fuel = length` always suffices and the fuel never runs out
before the scan is finished. -/
def labelGo : Nat → List Char → List Char
  | 0, s => s
  | Nat.succ fuel, s =>
      match findBareImg s with
      | none => s
      | some (pre, inner, tail) =>
          pre ++ "![图片](".data ++ inner ++ ')' :: labelGo fuel tail

/-- Line 344: `re.sub(r'!\[\]\(([^)]+)\)', r'![图片](\1)', s)`. -/
def labelBareImages (s : String) : String := String.mk (labelGo s.data.length s.data)

/-- The backquote character, `chr(96)`. -/
def tick : Char := Char.ofNat 96

/-- Python `\s` on the characters relevant here (ASCII whitespace). -/
def isPySpace (c : Char) : Bool :=
  c = ' ' || c = '\t' || c = '\n' || c = '\r' || c = Char.ofNat 11 || c = Char.ofNat 12

/-- Try to match ``` `` `\s+` `` ``` (three backquotes, whitespace, three
backquotes) at the head of the text; the greedy `\s+` needs no backtracking
because a backquote is not whitespace. -/
def matchEmptyCode : List Char → Option (List Char)
  | c₁ :: c₂ :: c₃ :: rest =>
      if c₁ = tick ∧ c₂ = tick ∧ c₃ = tick then
        match rest.takeWhile isPySpace, rest.dropWhile isPySpace with
        | _ :: _, d₁ :: d₂ :: d₃ :: tail =>
            if d₁ = tick ∧ d₂ = tick ∧ d₃ = tick then some tail else none
        | _, _ => none
      else none
  | _ => none

def findEmptyCode : List Char → Option (List Char × List Char)
  | [] => none
  | c :: cs =>
      match matchEmptyCode (c :: cs) with
      | some tail => some ([], tail)
      | none =>
          match findEmptyCode cs with
          | some (pre, tail) => some (c :: pre, tail)
          | none => none

/-- Repeated leftmost deletion for line 347; every match consumes at least
seven characters, so `fuel = length` suffices. -/
def dropCodeGo : Nat → List Char → List Char
  | 0, s => s
  | Nat.succ fuel, s =>
      match findEmptyCode s with
      | none => s
      | some (pre, tail) => pre ++ dropCodeGo fuel tail

/-- Line 347: delete every empty fenced code block. -/
def dropEmptyCodeBlocks (s : String) : String := String.mk (dropCodeGo s.data.length s.data)

/-- Lines 340-347: the three post-processing substitutions, in program order. -/
def postProcessMd (s : String) : String :=
  dropEmptyCodeBlocks (labelBareImages (collapseBlankLinesStr s))

/-- Model of `convert_html_to_markdown` (lines 305-354) for one spine entry: read the
document (a missing entry raises `KeyError`, caught on line 351, and nothing is
appended — modelled by `none`), rewrite image references, run the heading pass,
render, post-process. -/
def convert_html_to_markdown (docEntries : List (String × List Node))
    (opfDir filePath : String) (image_map : Dict) : Option String :=
  match dlookup docEntries (joinPath opfDir filePath) with
  | none => none
  | some nodes =>
      some (postProcessMd (renderDoc (headingPassDoc (processImgs image_map nodes))))

/-! ## Assembly and the top-level pipeline (`extract_content_from_epub`) -/

/-- Lines 262-266: the conditionally prepended title heading and author line
(`if title:` / `if author:` are non-emptiness tests on the strings computed on
lines 201-210). -/
def headerPieces (title author : String) : List String :=
  (if title ≠ "" then ["# " ++ title ++ "\n"] else []) ++
    (if author ≠ "" then ["**作者：" ++ author ++ "**\n"] else [])

/-- Lines 268-277: the documents to convert, in order.  A non-empty spine is
followed in itemref order, skipping idrefs that are not content items
(`if idref in content_items`); an empty spine falls back to iterating
`content_items.items()`, i.e. the dict in insertion order. -/
def contentDocPaths (cItems : Dict) (spine : List String) : List String :=
  if spine.isEmpty then cItems.map Prod.snd
  else spine.filterMap (fun idref => dlookup cItems idref)

/-- The fragments appended to `markdown_content` by the loop of lines 268-277;
a document whose entry is missing appends nothing (lines 351-352). -/
def convertedFragments (e : Epub) (image_map : Dict) (cItems : Dict) : List String :=
  (contentDocPaths cItems e.spine).filterMap
    (fun p => convert_html_to_markdown e.docEntries e.opfDir p image_map)

/-- The observable outcome of one `extract_content_from_epub` call: the
returned value (`None` on a structural failure) and the files written before
returning.  `imageWrites` pairs each created image file with its bytes (`none`
for the empty stub left when the archive entry was missing); `mdWrite` is the
markdown output file. -/
structure RunResult where
  result : Option String
  imageWrites : List (String × Option (List Nat))
  mdWrite : Option (String × String)
deriving DecidableEq, Repr

/-- Model of `extract_content_from_epub` (lines 120-303) from the first archive read
onward.  Reading `META-INF/container.xml` is the first statement of the `try`
block (line 182): when the entry is absent the `KeyError` reaches the handler
on line 301 before anything is written, and `None` is returned.  The same
handler receives the `AttributeError` raised by the manifest loop on an item
without a `media-type` (line 228), which also precedes every write.  Otherwise
images are extracted, the header and the converted fragments are accumulated
into `markdown_content`, and the joined text is written and returned. -/
def extract_content_from_epub (e : Epub) (mdImgDir imageDir outputPath : String) :
    RunResult :=
  if e.containerPresent then
    match classifyItems e.manifest with
    | none => { result := none, imageWrites := [], mdWrite := none }
    | some (cItems, iItems) =>
        let ws := (extractImages e imageDir mdImgDir iItems).1
        let image_map := (extractImages e imageDir mdImgDir iItems).2
        let pieces := headerPieces e.title e.author ++ convertedFragments e image_map cItems
        let text := String.intercalate "\n" pieces
        { result := some text, imageWrites := ws, mdWrite := some (outputPath, text) }
  else { result := none, imageWrites := [], mdWrite := none }

/-! ## Lemmas about the blank-line collapse (claim C9) -/

/-- Every maximal newline run of the text is of length at most two, given that
`n` newlines directly precede the text. -/
def boundedRuns : List Char → Nat → Bool
  | [], n => decide (n ≤ 2)
  | c :: cs, n =>
      if c = '\n' then boundedRuns cs (n + 1) else (decide (n ≤ 2) && boundedRuns cs 0)

theorem emitRun_eq (n : Nat) :
    emitRun n = List.replicate (if 3 ≤ n then 2 else n) '\n' := by
  unfold emitRun
  split <;> rfl

theorem boundedRuns_replicate (k : Nat) (l : List Char) (m : Nat) :
    boundedRuns (List.replicate k '\n' ++ l) m = boundedRuns l (m + k) := by
  induction k generalizing m with
  | zero => simp
  | succ k ih =>
      rw [List.replicate_succ]
      show boundedRuns ('\n' :: (List.replicate k '\n' ++ l)) m = _
      rw [show boundedRuns ('\n' :: (List.replicate k '\n' ++ l)) m
            = boundedRuns (List.replicate k '\n' ++ l) (m + 1) from by
          simp [boundedRuns]]
      rw [ih]
      congr 1
      omega

theorem boundedRuns_collapseGo (s : List Char) (n : Nat) :
    boundedRuns (collapseGo s n) 0 = true := by
  induction s generalizing n with
  | nil =>
      show boundedRuns (emitRun n) 0 = true
      rw [emitRun_eq, ← List.append_nil (List.replicate _ '\n'), boundedRuns_replicate]
      show decide _ = true
      simp only [decide_eq_true_eq]
      split <;> omega
  | cons c cs ih =>
      show boundedRuns (if c = '\n' then collapseGo cs (n + 1)
            else emitRun n ++ c :: collapseGo cs 0) 0 = true
      by_cases hc : c = '\n'
      · rw [if_pos hc]; exact ih (n + 1)
      · rw [if_neg hc, emitRun_eq, boundedRuns_replicate]
        show boundedRuns (c :: collapseGo cs 0) _ = true
        simp only [boundedRuns, if_neg hc, Bool.and_eq_true, decide_eq_true_eq]
        constructor
        · split <;> omega
        · exact ih 0

theorem collapseGo_of_bounded (s : List Char) (n : Nat)
    (h : boundedRuns s n = true) : collapseGo s n = List.replicate n '\n' ++ s := by
  induction s generalizing n with
  | nil =>
      have hn : n ≤ 2 := by simpa [boundedRuns] using h
      show emitRun n = _
      rw [emitRun_eq, if_neg (by omega : ¬ 3 ≤ n)]
      simp
  | cons c cs ih =>
      by_cases hc : c = '\n'
      · subst hc
        have h' : boundedRuns cs (n + 1) = true := by simpa [boundedRuns] using h
        show collapseGo cs (n + 1) = _
        rw [ih (n + 1) h', List.replicate_succ']
        simp
      · have h' : n ≤ 2 ∧ boundedRuns cs 0 = true := by
          simpa [boundedRuns, hc] using h
        show (if c = '\n' then collapseGo cs (n + 1)
              else emitRun n ++ c :: collapseGo cs 0) = _
        rw [if_neg hc, ih 0 h'.2, emitRun_eq, if_neg (by omega : ¬ 3 ≤ n)]
        simp

/-- C9: the blank-line normalization pass of line 341 is idempotent — applying
the collapse of three-or-more consecutive newlines twice yields the same text
as applying it once. -/
theorem collapseBlankLines_idempotent (s : String) :
    collapseBlankLinesStr (collapseBlankLinesStr s) = collapseBlankLinesStr s := by
  show String.mk (collapseGo (collapseGo s.data 0) 0) = String.mk (collapseGo s.data 0)
  rw [collapseGo_of_bounded _ 0 (boundedRuns_collapseGo s.data 0)]
  simp

/-! ## Claim C2: image-reference rewriting -/

/-- Statement of the spec's wording for claim C2: look the literal `src` up in
the rename map; if absent, look up its basename; if both lookups fail, leave
the reference unchanged. -/
def specImageLookup (image_map : Dict) (src : String) : String :=
  match dlookup image_map src with
  | some v => v
  | none =>
      match dlookup image_map (basename src) with
      | some v => v
      | none => src

/-- C2: during conversion of a content document, every `img` element with a
non-empty reference is rewritten by first looking its literal `src` up in the
asset rename map, then its basename, and is left unchanged when both lookups
fail; all other elements and positions are untouched. -/
theorem img_rewrite_follows_lookup_chain (image_map : Dict) (d : List Node)
    (i : Nat) (src : String) (hi : d[i]? = some (Node.img src)) (hs : src ≠ "") :
    (processImgs image_map d)[i]? = some (Node.img (specImageLookup image_map src)) := by
  have hmap : (processImgs image_map d)[i]? = (d[i]?).map (rewriteNode image_map) := by
    simp [processImgs]
  rw [hmap, hi]
  show some (rewriteNode image_map (Node.img src)) = _
  have : rewriteSrc image_map src = specImageLookup image_map src := by
    unfold rewriteSrc specImageLookup
    rw [if_pos hs]
    cases h₁ : dlookup image_map src with
    | some v => simp [h₁]
    | none =>
        cases h₂ : dlookup image_map (basename src) with
        | some v => simp [h₁, h₂]
        | none => simp [h₁, h₂]
  simp [rewriteNode, this]

/-- Witness for C2 at a concrete map and document: the second element is an
image whose literal `src` misses the map but whose basename hits it. -/
theorem img_rewrite_follows_lookup_chain_witness :
    ([Node.para "x", Node.img "a/pic.png"][1]? = some (Node.img "a/pic.png") ∧
        ("a/pic.png" : String) ≠ "") ∧
      (processImgs [("pic.png", "/books/1/images/im1.png")]
            [Node.para "x", Node.img "a/pic.png"])[1]? =
        some (Node.img (specImageLookup [("pic.png", "/books/1/images/im1.png")] "a/pic.png")) :=
  ⟨⟨by decide, by decide⟩,
    img_rewrite_follows_lookup_chain [("pic.png", "/books/1/images/im1.png")]
      [Node.para "x", Node.img "a/pic.png"] 1 "a/pic.png" (by decide) (by decide)⟩

/-! ## Claim C3: heading separation -/

/-- The heading stage of the conversion loop of lines 268-277: each document is
handled by its own `convert_html_to_markdown` call, whose `enumerate` on
line 328 restarts at 0, so each document runs `addHeadingBlanks · 0`
independently. -/
def headingPassCorpus (docs : List (List Node)) : List (List Node) :=
  docs.map headingPassDoc

/-- Statement of the spec's wording for claim C3 (modelled from the spec, not
the code): the heading counter is threaded globally across all documents and is
not reset at a document boundary. -/
def addHeadingBlanksGlobal : List Node → Nat → List Node × Nat
  | [], i => ([], i)
  | Node.img s :: rest, i =>
      let (out, j) := addHeadingBlanksGlobal rest i
      (Node.img s :: out, j)
  | Node.para t :: rest, i =>
      let (out, j) := addHeadingBlanksGlobal rest i
      (Node.para t :: out, j)
  | Node.heading lv t :: rest, i =>
      let (out, j) := addHeadingBlanksGlobal rest (i + 1)
      ((if 0 < i then [Node.para "", Node.heading lv t] else [Node.heading lv t]) ++ out, j)

/-- Corpus-level heading pass with the globally threaded counter claimed by the
spec (modelled from the spec, for comparison with `headingPassCorpus`). -/
def headingPassCorpusGlobal (docs : List (List Node)) : List (List Node) :=
  (docs.foldl
    (fun acc d =>
      let (out, j) := addHeadingBlanksGlobal d acc.2
      (acc.1 ++ [out], j))
    (([] : List (List Node)), 0)).1

theorem headingCount_img (s : String) (rest : List Node) :
    headingCount (Node.img s :: rest) = headingCount rest := by
  simp [headingCount, isHeading]

theorem headingCount_para (t : String) (rest : List Node) :
    headingCount (Node.para t :: rest) = headingCount rest := by
  simp [headingCount, isHeading]

theorem headingCount_heading (lv : Nat) (t : String) (rest : List Node) :
    headingCount (Node.heading lv t :: rest) = headingCount rest + 1 := by
  simp [headingCount, isHeading]

theorem addHeadingBlanks_append (l₁ l₂ : List Node) (i : Nat) :
    addHeadingBlanks (l₁ ++ l₂) i =
      addHeadingBlanks l₁ i ++ addHeadingBlanks l₂ (i + headingCount l₁) := by
  induction l₁ generalizing i with
  | nil => simp [addHeadingBlanks, headingCount]
  | cons n rest ih =>
      cases n with
      | img s => simp [addHeadingBlanks, ih, headingCount_img]
      | para t => simp [addHeadingBlanks, ih, headingCount_para]
      | heading lv t =>
          simp only [List.cons_append, addHeadingBlanks, headingCount_heading,
            List.append_assoc]
          have harith : i + 1 + headingCount rest = i + (headingCount rest + 1) := by omega
          rw [List.append_eq, ih (i + 1), harith]

/-- Counterexample to C3 as stated: a corpus of two documents, each holding one
heading.  The second document's heading is not the first heading of the corpus,
yet the code inserts no empty block before it (its per-document index is 0
again), while the globally counted pass demanded by the claim does. -/
theorem heading_counter_not_global :
    headingPassCorpus [[Node.heading 1 "a"], [Node.heading 1 "b"]] =
        [[Node.heading 1 "a"], [Node.heading 1 "b"]] ∧
      headingPassCorpusGlobal [[Node.heading 1 "a"], [Node.heading 1 "b"]] =
        [[Node.heading 1 "a"], [Node.para "", Node.heading 1 "b"]] ∧
      headingPassCorpus [[Node.heading 1 "a"], [Node.heading 1 "b"]] ≠
        headingPassCorpusGlobal [[Node.heading 1 "a"], [Node.heading 1 "b"]] := by
  refine ⟨by decide, by decide, by decide⟩

/-- C3 as amended: the empty block is inserted before every heading except the
first heading of each individual document — the counter is per `convert_html_to_markdown`
call and resets at each document boundary.  Whether a given heading receives an
empty block depends only on the number of headings before it in its own
document (`headingCount pre`), never on the surrounding documents. -/
theorem heading_blanks_reset_per_document (docs₁ docs₂ : List (List Node))
    (pre post : List Node) (lv : Nat) (t : String) :
    headingPassCorpus (docs₁ ++ (pre ++ Node.heading lv t :: post) :: docs₂) =
      docs₁.map headingPassDoc ++
        (headingPassDoc pre ++
          ((if headingCount pre = 0 then [] else [Node.para ""]) ++
            Node.heading lv t :: addHeadingBlanks post (headingCount pre + 1))) ::
          docs₂.map headingPassDoc := by
  unfold headingPassCorpus
  rw [List.map_append, List.map_cons]
  congr 2
  show addHeadingBlanks (pre ++ Node.heading lv t :: post) 0 = _
  rw [addHeadingBlanks_append]
  show addHeadingBlanks pre 0 ++ addHeadingBlanks (Node.heading lv t :: post) _ = _
  unfold headingPassDoc
  congr 1
  show (if 0 < 0 + headingCount pre then [Node.para "", Node.heading lv t]
          else [Node.heading lv t]) ++ addHeadingBlanks post (0 + headingCount pre + 1) = _
  rcases Nat.eq_zero_or_pos (headingCount pre) with h | h
  · rw [h]
    simp
  · rw [if_pos (by omega), if_neg (by omega)]
    simp only [Nat.zero_add]
    rfl

/-! ## Claim C7: duplicate manifest identifiers -/

theorem classifyGo_cons_none (it : ManifestItem) (rest : List ManifestItem)
    (c im : Dict) (h : it.mediaType = none) : classifyGo (it :: rest) c im = none := by
  unfold classifyGo
  rw [h]

theorem classifyGo_cons_content (it : ManifestItem) (rest : List ManifestItem)
    (c im : Dict) (mt : String) (h : it.mediaType = some mt) (hct : isContentMT mt = true) :
    classifyGo (it :: rest) c im = classifyGo rest (dinsert c it.id it.href) im := by
  conv_lhs => unfold classifyGo
  rw [h]
  simp only [hct, if_true]

theorem classifyGo_cons_image (it : ManifestItem) (rest : List ManifestItem)
    (c im : Dict) (mt : String) (h : it.mediaType = some mt)
    (hct : isContentMT mt = false) (him : strStartsWith mt "image/" = true) :
    classifyGo (it :: rest) c im = classifyGo rest c (dinsert im it.id it.href) := by
  conv_lhs => unfold classifyGo
  rw [h]
  simp only [hct, him, Bool.false_eq_true, if_false, if_true]

theorem classifyGo_cons_other (it : ManifestItem) (rest : List ManifestItem)
    (c im : Dict) (mt : String) (h : it.mediaType = some mt)
    (hct : isContentMT mt = false) (him : strStartsWith mt "image/" = false) :
    classifyGo (it :: rest) c im = classifyGo rest c im := by
  conv_lhs => unfold classifyGo
  rw [h]
  simp only [hct, him, Bool.false_eq_true, if_false]

theorem classifyGo_append (l₁ l₂ : List ManifestItem) (c im : Dict) :
    classifyGo (l₁ ++ l₂) c im =
      match classifyGo l₁ c im with
      | none => none
      | some (c', im') => classifyGo l₂ c' im' := by
  induction l₁ generalizing c im with
  | nil => rfl
  | cons it rest ih =>
      cases hmt : it.mediaType with
      | none =>
          rw [show (it :: rest) ++ l₂ = it :: (rest ++ l₂) from rfl,
            classifyGo_cons_none it (rest ++ l₂) c im hmt,
            classifyGo_cons_none it rest c im hmt]
      | some mt =>
          by_cases h₁ : isContentMT mt = true
          · rw [show (it :: rest) ++ l₂ = it :: (rest ++ l₂) from rfl,
              classifyGo_cons_content it (rest ++ l₂) c im mt hmt h₁,
              classifyGo_cons_content it rest c im mt hmt h₁]
            exact ih _ _
          · rw [Bool.not_eq_true] at h₁
            by_cases h₂ : strStartsWith mt "image/" = true
            · rw [show (it :: rest) ++ l₂ = it :: (rest ++ l₂) from rfl,
                classifyGo_cons_image it (rest ++ l₂) c im mt hmt h₁ h₂,
                classifyGo_cons_image it rest c im mt hmt h₁ h₂]
              exact ih _ _
            · rw [Bool.not_eq_true] at h₂
              rw [show (it :: rest) ++ l₂ = it :: (rest ++ l₂) from rfl,
                classifyGo_cons_other it (rest ++ l₂) c im mt hmt h₁ h₂,
                classifyGo_cons_other it rest c im mt hmt h₁ h₂]
              exact ih _ _

/-- Counterexample to C7 as stated: a manifest with two content items sharing
the identifier `a`.  The classification neither fails nor keeps the first
occurrence's href — it succeeds with the second occurrence's href. -/
theorem duplicate_manifest_id_not_first_wins :
    classifyItems
        [⟨"a", "1.html", some "application/xhtml+xml"⟩,
          ⟨"a", "2.html", some "application/xhtml+xml"⟩] =
      some ([("a", "2.html")], []) ∧ ("2.html" : String) ≠ "1.html" :=
  ⟨by decide, by decide⟩

/-- C7 as amended: duplicates are silently accepted and the *last* occurrence
wins — appending a further content item with an already-used identifier makes
the identifier map to the new item's href, and the operation does not fail on
that account. -/
theorem duplicate_manifest_id_last_wins (items : List ManifestItem)
    (it : ManifestItem) (mt : String) (c im : Dict)
    (hmt : it.mediaType = some mt) (hct : isContentMT mt = true)
    (hok : classifyItems (items ++ [it]) = some (c, im)) :
    dlookup c it.id = some it.href := by
  unfold classifyItems at hok
  rw [classifyGo_append] at hok
  cases h₁ : classifyGo items [] [] with
  | none => rw [h₁] at hok; exact absurd hok (by simp)
  | some p =>
      obtain ⟨c₁, im₁⟩ := p
      rw [h₁] at hok
      have hok' : classifyGo [it] c₁ im₁ = some (c, im) := hok
      rw [classifyGo_cons_content it [] c₁ im₁ mt hmt hct] at hok'
      have hc : c = dinsert c₁ it.id it.href := by
        cases hok'
        rfl
      rw [hc, dlookup_dinsert]
      simp

/-- Witness for C7 (amended) at the concrete duplicated manifest. -/
theorem duplicate_manifest_id_last_wins_witness :
    ((ManifestItem.mk "a" "2.html" (some "application/xhtml+xml")).mediaType =
          some "application/xhtml+xml" ∧
        isContentMT "application/xhtml+xml" = true ∧
        classifyItems
            ([⟨"a", "1.html", some "application/xhtml+xml"⟩] ++
              [⟨"a", "2.html", some "application/xhtml+xml"⟩]) =
          some ([("a", "2.html")], [])) ∧
      dlookup [("a", "2.html")] "a" = some "2.html" :=
  ⟨⟨by decide, by decide, by decide⟩,
    duplicate_manifest_id_last_wins [⟨"a", "1.html", some "application/xhtml+xml"⟩]
      ⟨"a", "2.html", some "application/xhtml+xml"⟩ "application/xhtml+xml"
      [("a", "2.html")] [] (by decide) (by decide) (by decide)⟩

/-! ## Claims C5 and C10: structural failures abort the whole conversion -/

theorem classifyGo_none_of_missing (items : List ManifestItem) (c im : Dict)
    (h : ∃ it ∈ items, it.mediaType = none) : classifyGo items c im = none := by
  induction items generalizing c im with
  | nil => obtain ⟨it, hmem, _⟩ := h; exact absurd hmem (by simp)
  | cons it rest ih =>
      cases hmt : it.mediaType with
      | none => exact classifyGo_cons_none it rest c im hmt
      | some mt =>
          have hrest : ∃ it' ∈ rest, it'.mediaType = none := by
            obtain ⟨it', hmem, hnone⟩ := h
            rcases List.mem_cons.mp hmem with heq | hmem'
            · rw [heq] at hnone; rw [hnone] at hmt; exact absurd hmt (by simp)
            · exact ⟨it', hmem', hnone⟩
          by_cases h₁ : isContentMT mt = true
          · rw [classifyGo_cons_content it rest c im mt hmt h₁]; exact ih _ _ hrest
          · rw [Bool.not_eq_true] at h₁
            by_cases h₂ : strStartsWith mt "image/" = true
            · rw [classifyGo_cons_image it rest c im mt hmt h₁ h₂]; exact ih _ _ hrest
            · rw [Bool.not_eq_true] at h₂
              rw [classifyGo_cons_other it rest c im mt hmt h₁ h₂]; exact ih _ _ hrest

/-- C5: when the container pointer entry `META-INF/container.xml` is absent,
the conversion fails with the structural error caught on line 301, the caller
receives `None`, and no output file — neither an image nor the markdown text —
has been written. -/
theorem missing_container_aborts_without_output (e : Epub)
    (mdImgDir imageDir outputPath : String) (h : e.containerPresent = false) :
    extract_content_from_epub e mdImgDir imageDir outputPath =
      { result := none, imageWrites := [], mdWrite := none } := by
  unfold extract_content_from_epub
  rw [h]
  simp

/-- Witness for C5: a concrete archive lacking the container pointer entry. -/
theorem missing_container_aborts_without_output_witness :
    (Epub.mk false "" "t" "a"
          [⟨"d1", "1.html", some "application/xhtml+xml"⟩] ["d1"]
          [("1.html", [Node.para "hello"])] []).containerPresent = false ∧
      extract_content_from_epub
          (Epub.mk false "" "t" "a"
            [⟨"d1", "1.html", some "application/xhtml+xml"⟩] ["d1"]
            [("1.html", [Node.para "hello"])] [])
          "/books/1/images" "images" "out.md" =
        { result := none, imageWrites := [], mdWrite := none } :=
  ⟨by decide,
    missing_container_aborts_without_output
      (Epub.mk false "" "t" "a"
        [⟨"d1", "1.html", some "application/xhtml+xml"⟩] ["d1"]
        [("1.html", [Node.para "hello"])] [])
      "/books/1/images" "images" "out.md" (by decide)⟩

/-- C10: a manifest item without a `media-type` attribute makes the whole
conversion abort — `None.startswith` raises on line 228, the top-level handler
returns `None` (line 301-303), and nothing is written — even when every other
entry of the archive is valid. -/
theorem missing_media_type_aborts (e : Epub) (mdImgDir imageDir outputPath : String)
    (h : ∃ it ∈ e.manifest, it.mediaType = none) :
    extract_content_from_epub e mdImgDir imageDir outputPath =
      { result := none, imageWrites := [], mdWrite := none } := by
  unfold extract_content_from_epub
  by_cases hc : e.containerPresent = true
  · have : classifyItems e.manifest = none := classifyGo_none_of_missing _ _ _ h
    rw [hc, this]
    simp
  · rw [Bool.not_eq_true] at hc
    rw [hc]
    simp

/-- Witness for C10: an archive that is valid except for one image item whose
`media-type` attribute is missing. -/
theorem missing_media_type_aborts_witness :
    (∃ it ∈ (Epub.mk true "" "t" "a"
          [⟨"d1", "1.html", some "application/xhtml+xml"⟩, ⟨"i1", "x.png", none⟩]
          ["d1"] [("1.html", [Node.para "hello"])] [("x.png", [7])]).manifest,
        it.mediaType = none) ∧
      extract_content_from_epub
          (Epub.mk true "" "t" "a"
            [⟨"d1", "1.html", some "application/xhtml+xml"⟩, ⟨"i1", "x.png", none⟩]
            ["d1"] [("1.html", [Node.para "hello"])] [("x.png", [7])])
          "/books/1/images" "images" "out.md" =
        { result := none, imageWrites := [], mdWrite := none } :=
  ⟨by decide,
    missing_media_type_aborts
      (Epub.mk true "" "t" "a"
        [⟨"d1", "1.html", some "application/xhtml+xml"⟩, ⟨"i1", "x.png", none⟩]
        ["d1"] [("1.html", [Node.para "hello"])] [("x.png", [7])])
      "/books/1/images" "images" "out.md" (by decide)⟩

/-! ## Claim C6: rewritten asset paths and name collisions -/

theorem extractImagesGo_cons_found (e : Epub) (imageDir mdImgDir : String)
    (image_id image_href : String) (rest : Dict) (ws : List (String × Option (List Nat)))
    (m : Dict) (bs : List Nat)
    (h : dlookup e.imageEntries (joinPath e.opfDir image_href) = some bs) :
    extractImagesGo e imageDir mdImgDir ((image_id, image_href) :: rest) ws m =
      extractImagesGo e imageDir mdImgDir rest
        (ws ++ [(joinDir imageDir (new_image_name image_id image_href), some bs)])
        (dinsert
          (dinsert m (basename image_href)
            (mdImgDir ++ "/" ++ new_image_name image_id image_href))
          image_href (mdImgDir ++ "/" ++ new_image_name image_id image_href)) := by
  conv_lhs => unfold extractImagesGo
  rw [h]

theorem extractImagesGo_cons_missing (e : Epub) (imageDir mdImgDir : String)
    (image_id image_href : String) (rest : Dict) (ws : List (String × Option (List Nat)))
    (m : Dict)
    (h : dlookup e.imageEntries (joinPath e.opfDir image_href) = none) :
    extractImagesGo e imageDir mdImgDir ((image_id, image_href) :: rest) ws m =
      extractImagesGo e imageDir mdImgDir rest
        (ws ++ [(joinDir imageDir (new_image_name image_id image_href), none)]) m := by
  conv_lhs => unfold extractImagesGo
  rw [h]

/-- Already-recorded writes survive the rest of the image loop. -/
theorem extractImagesGo_writes_mono (e : Epub) (imageDir mdImgDir : String)
    (items : Dict) (ws : List (String × Option (List Nat))) (m : Dict)
    (w : String × Option (List Nat)) (hw : w ∈ ws) :
    w ∈ (extractImagesGo e imageDir mdImgDir items ws m).1 := by
  induction items generalizing ws m with
  | nil => exact hw
  | cons p rest ih =>
      obtain ⟨iid, ihref⟩ := p
      cases hl : dlookup e.imageEntries (joinPath e.opfDir ihref) with
      | some bs =>
          rw [extractImagesGo_cons_found e imageDir mdImgDir iid ihref rest ws m bs hl]
          exact ih _ _ (List.mem_append_left _ hw)
      | none =>
          rw [extractImagesGo_cons_missing e imageDir mdImgDir iid ihref rest ws m hl]
          exact ih _ _ (List.mem_append_left _ hw)

/-- Every image item whose archive entry exists contributes its saved file,
named `{identifier}{extension}`, to the write list. -/
theorem extractImagesGo_write_present (e : Epub) (imageDir mdImgDir : String)
    (items : Dict) (ws : List (String × Option (List Nat))) (m : Dict)
    (iid ihref : String) (bs : List Nat) (hmem : (iid, ihref) ∈ items)
    (h : dlookup e.imageEntries (joinPath e.opfDir ihref) = some bs) :
    (joinDir imageDir (new_image_name iid ihref), some bs) ∈
      (extractImagesGo e imageDir mdImgDir items ws m).1 := by
  induction items generalizing ws m with
  | nil => exact absurd hmem (by simp)
  | cons p rest ih =>
      obtain ⟨pid, phref⟩ := p
      rcases List.mem_cons.mp hmem with heq | hmem'
      · obtain ⟨h₁, h₂⟩ := Prod.mk.injEq .. ▸ heq
        subst h₁
        subst h₂
        rw [extractImagesGo_cons_found e imageDir mdImgDir iid ihref rest ws m bs h]
        exact extractImagesGo_writes_mono e imageDir mdImgDir rest _ _ _
          (List.mem_append_right _ (by simp))
      · cases hl : dlookup e.imageEntries (joinPath e.opfDir phref) with
        | some bs' =>
            rw [extractImagesGo_cons_found e imageDir mdImgDir pid phref rest ws m bs' hl]
            exact ih _ _ hmem'
        | none =>
            rw [extractImagesGo_cons_missing e imageDir mdImgDir pid phref rest ws m hl]
            exact ih _ _ hmem'

/-- The rename map's binding for a key that no successfully extracted item's
href or basename equals is untouched by the loop. -/
theorem extractImagesGo_dlookup_preserved (e : Epub) (imageDir mdImgDir : String)
    (items : Dict) (ws : List (String × Option (List Nat))) (m : Dict) (k : String)
    (h : ∀ p ∈ items, (dlookup e.imageEntries (joinPath e.opfDir p.2)).isSome = true →
      p.2 ≠ k ∧ basename p.2 ≠ k) :
    dlookup (extractImagesGo e imageDir mdImgDir items ws m).2 k = dlookup m k := by
  induction items generalizing ws m with
  | nil => rfl
  | cons p rest ih =>
      obtain ⟨pid, phref⟩ := p
      have hrest : ∀ p ∈ rest,
          (dlookup e.imageEntries (joinPath e.opfDir p.2)).isSome = true →
            p.2 ≠ k ∧ basename p.2 ≠ k :=
        fun q hq => h q (List.mem_cons_of_mem _ hq)
      cases hl : dlookup e.imageEntries (joinPath e.opfDir phref) with
      | some bs =>
          rw [extractImagesGo_cons_found e imageDir mdImgDir pid phref rest ws m bs hl]
          rw [ih _ _ hrest]
          have hk : phref ≠ k ∧ basename phref ≠ k :=
            h (pid, phref) (List.mem_cons_self _ _) (by rw [hl]; rfl)
          rw [dlookup_dinsert, if_neg hk.1, dlookup_dinsert, if_neg hk.2]
      | none =>
          rw [extractImagesGo_cons_missing e imageDir mdImgDir pid phref rest ws m hl]
          exact ih _ _ hrest

/-- Distinct identifiers with hrefs of equal extension derive distinct asset
filenames (string-append right cancellation). -/
theorem new_image_name_inj_same_ext (id₁ href₁ id₂ href₂ : String)
    (hid : id₁ ≠ id₂) (hext : splitextExt href₁ = splitextExt href₂) :
    new_image_name id₁ href₁ ≠ new_image_name id₂ href₂ := by
  unfold new_image_name
  rw [hext]
  intro heq
  apply hid
  have hdata : id₁.data ++ (splitextExt href₂).data =
      id₂.data ++ (splitextExt href₂).data := by
    rw [← String.data_append, ← String.data_append]
    exact congrArg String.data heq
  exact String.ext (List.append_cancel_right hdata)

/-- Counterexample to C6 as stated: the derived asset filenames are *not*
collision-free for arbitrary distinct manifest identifiers — the identifier
`x` with an href of extension `.png` and the identifier `x.png` with an
extensionless href both derive the filename `x.png`. -/
theorem derived_asset_names_can_collide :
    new_image_name "x" "a/a.png" = new_image_name "x.png" "a/b" ∧
      ("x" : String) ≠ "x.png" ∧
      new_image_name "x" "a/a.png" = "x.png" :=
  ⟨by decide, by decide, by decide⟩

/-- Auxiliary induction for claim C6: when every image item's entry is present,
the items are pairwise distinct, and no two distinct items share an href or a
basename (in any combination), the final rename map binds each item's href and
basename to `{mdImgDir}/{identifier}{extension}`. -/
theorem extractImagesGo_sets_keys (e : Epub) (imageDir mdImgDir : String)
    (items : Dict) (ws : List (String × Option (List Nat))) (m : Dict)
    (iid ihref : String)
    (hnd : items.Nodup)
    (hmem : (iid, ihref) ∈ items)
    (hpres : ∀ p ∈ items, (dlookup e.imageEntries (joinPath e.opfDir p.2)).isSome = true)
    (hdisj : ∀ p ∈ items, ∀ q ∈ items, p ≠ q →
      p.2 ≠ q.2 ∧ basename p.2 ≠ q.2 ∧ p.2 ≠ basename q.2 ∧ basename p.2 ≠ basename q.2) :
    dlookup (extractImagesGo e imageDir mdImgDir items ws m).2 ihref =
        some (mdImgDir ++ "/" ++ new_image_name iid ihref) ∧
      dlookup (extractImagesGo e imageDir mdImgDir items ws m).2 (basename ihref) =
        some (mdImgDir ++ "/" ++ new_image_name iid ihref) := by
  induction items generalizing ws m with
  | nil => exact absurd hmem (by simp)
  | cons p rest ih =>
      obtain ⟨pid, phref⟩ := p
      rcases List.mem_cons.mp hmem with heq | hmem'
      · obtain ⟨h₁, h₂⟩ := Prod.mk.injEq .. ▸ heq
        subst h₁
        subst h₂
        obtain ⟨bs, hbs⟩ := Option.isSome_iff_exists.mp
          (hpres (iid, ihref) (List.mem_cons_self _ _))
        rw [extractImagesGo_cons_found e imageDir mdImgDir iid ihref rest ws m bs hbs]
        have hrest₁ : ∀ q ∈ rest,
            (dlookup e.imageEntries (joinPath e.opfDir q.2)).isSome = true →
              q.2 ≠ ihref ∧ basename q.2 ≠ ihref := by
          intro q hq _
          have hqe : q ≠ (iid, ihref) := by
            intro hqe
            rw [hqe] at hq
            exact (List.nodup_cons.mp hnd).1 hq
          have := hdisj q (List.mem_cons_of_mem _ hq) (iid, ihref)
            (List.mem_cons_self _ _) hqe
          exact ⟨this.1, this.2.1⟩
        have hrest₂ : ∀ q ∈ rest,
            (dlookup e.imageEntries (joinPath e.opfDir q.2)).isSome = true →
              q.2 ≠ basename ihref ∧ basename q.2 ≠ basename ihref := by
          intro q hq _
          have hqe : q ≠ (iid, ihref) := by
            intro hqe
            rw [hqe] at hq
            exact (List.nodup_cons.mp hnd).1 hq
          have := hdisj q (List.mem_cons_of_mem _ hq) (iid, ihref)
            (List.mem_cons_self _ _) hqe
          exact ⟨this.2.2.1, this.2.2.2⟩
        constructor
        · rw [extractImagesGo_dlookup_preserved e imageDir mdImgDir rest _ _ _ hrest₁,
            dlookup_dinsert]
          simp
        · rw [extractImagesGo_dlookup_preserved e imageDir mdImgDir rest _ _ _ hrest₂,
            dlookup_dinsert]
          by_cases hb : ihref = basename ihref
          · rw [if_pos hb]
          · rw [if_neg hb, dlookup_dinsert, if_pos rfl]
      · have hnd' : rest.Nodup := (List.nodup_cons.mp hnd).2
        have hpres' : ∀ q ∈ rest,
            (dlookup e.imageEntries (joinPath e.opfDir q.2)).isSome = true :=
          fun q hq => hpres q (List.mem_cons_of_mem _ hq)
        have hdisj' : ∀ p' ∈ rest, ∀ q ∈ rest, p' ≠ q →
            p'.2 ≠ q.2 ∧ basename p'.2 ≠ q.2 ∧ p'.2 ≠ basename q.2 ∧
              basename p'.2 ≠ basename q.2 :=
          fun p' hp' q hq => hdisj p' (List.mem_cons_of_mem _ hp') q
            (List.mem_cons_of_mem _ hq)
        cases hl : dlookup e.imageEntries (joinPath e.opfDir phref) with
        | some bs =>
            rw [extractImagesGo_cons_found e imageDir mdImgDir pid phref rest ws m bs hl]
            exact ih _ _ hnd' hmem' hpres' hdisj'
        | none =>
            rw [extractImagesGo_cons_missing e imageDir mdImgDir pid phref rest ws m hl]
            exact ih _ _ hnd' hmem' hpres' hdisj'

/-- C6 as amended: every successfully extracted image's rewritten reference is
`{base path}/{identifier}{extension}` (the rename map binds both the item's
href and its basename to that path), and the derived filenames
`{identifier}{extension}` are distinct for distinct identifiers *whose hrefs
have the same extension*; without that proviso collisions are possible (see
the counterexample), contrary to the claim. -/
theorem image_rewritten_paths (e : Epub) (imageDir mdImgDir : String)
    (items : Dict) (iid ihref : String)
    (hnd : items.Nodup)
    (hmem : (iid, ihref) ∈ items)
    (hpres : ∀ p ∈ items, (dlookup e.imageEntries (joinPath e.opfDir p.2)).isSome = true)
    (hdisj : ∀ p ∈ items, ∀ q ∈ items, p ≠ q →
      p.2 ≠ q.2 ∧ basename p.2 ≠ q.2 ∧ p.2 ≠ basename q.2 ∧ basename p.2 ≠ basename q.2) :
    dlookup (extractImages e imageDir mdImgDir items).2 ihref =
        some (mdImgDir ++ "/" ++ new_image_name iid ihref) ∧
      dlookup (extractImages e imageDir mdImgDir items).2 (basename ihref) =
        some (mdImgDir ++ "/" ++ new_image_name iid ihref) ∧
      (∀ id₁ href₁ id₂ href₂ : String, id₁ ≠ id₂ →
        splitextExt href₁ = splitextExt href₂ →
        new_image_name id₁ href₁ ≠ new_image_name id₂ href₂) := by
  have h := extractImagesGo_sets_keys e imageDir mdImgDir items [] [] iid ihref
    hnd hmem hpres hdisj
  exact ⟨h.1, h.2, fun id₁ href₁ id₂ href₂ hid hext =>
    new_image_name_inj_same_ext id₁ href₁ id₂ href₂ hid hext⟩

/-- Witness for C6 (amended) at a concrete archive with two images that share
the basename-free disjointness hypotheses. -/
theorem image_rewritten_paths_witness :
    (([("i1", "pics/a.png"), ("i2", "pics/b.jpg")] : Dict).Nodup ∧
        ("i1", "pics/a.png") ∈ ([("i1", "pics/a.png"), ("i2", "pics/b.jpg")] : Dict) ∧
        (∀ p ∈ ([("i1", "pics/a.png"), ("i2", "pics/b.jpg")] : Dict),
          (dlookup (Epub.mk true "" "" "" [] [] []
              [("pics/a.png", [1, 2]), ("pics/b.jpg", [3])]).imageEntries
            (joinPath (Epub.mk true "" "" "" [] [] []
              [("pics/a.png", [1, 2]), ("pics/b.jpg", [3])]).opfDir p.2)).isSome = true)) ∧
      dlookup
          (extractImages
            (Epub.mk true "" "" "" [] [] []
              [("pics/a.png", [1, 2]), ("pics/b.jpg", [3])])
            "images" "/books/7/images" [("i1", "pics/a.png"), ("i2", "pics/b.jpg")]).2
          "pics/a.png" =
        some ("/books/7/images" ++ "/" ++ new_image_name "i1" "pics/a.png") :=
  ⟨⟨by decide, by decide, by decide⟩,
    (image_rewritten_paths
      (Epub.mk true "" "" "" [] [] [] [("pics/a.png", [1, 2]), ("pics/b.jpg", [3])])
      "images" "/books/7/images" [("i1", "pics/a.png"), ("i2", "pics/b.jpg")]
      "i1" "pics/a.png" (by decide) (by decide) (by decide) (by decide)).1⟩

/-! ## Claim C4: one missing image entry -/

theorem basename_foldl_no_slash (l acc : List Char) (h : '/' ∉ acc) :
    '/' ∉ l.foldl (fun acc c => if c = '/' then [] else acc ++ [c]) acc := by
  induction l generalizing acc with
  | nil => exact h
  | cons c rest ih =>
      by_cases hc : c = '/'
      · simp only [List.foldl_cons, hc, if_pos rfl]
        exact ih [] (by simp)
      · simp only [List.foldl_cons, if_neg hc]
        exact ih (acc ++ [c]) (by
          intro hmem
          rcases List.mem_append.mp hmem with h₁ | h₂
          · exact h h₁
          · exact hc (List.mem_singleton.mp h₂).symm)

theorem basename_foldl_id (l acc : List Char) (h : '/' ∉ l) :
    l.foldl (fun acc c => if c = '/' then [] else acc ++ [c]) acc = acc ++ l := by
  induction l generalizing acc with
  | nil => simp
  | cons c rest ih =>
      have hc : c ≠ '/' := fun hc => h (hc ▸ List.mem_cons_self _ _)
      have hrest : '/' ∉ rest := fun hr => h (List.mem_cons_of_mem _ hr)
      simp only [List.foldl_cons, if_neg (fun hcc => hc hcc), ih _ hrest,
        List.append_assoc, List.singleton_append]

/-- Model fact matching `os.path.basename`: taking the basename twice is the
same as taking it once. -/
theorem basename_idem (s : String) : basename (basename s) = basename s := by
  unfold basename
  have hns : '/' ∉ (String.mk
      (s.data.foldl (fun acc c => if c = '/' then [] else acc ++ [c]) [])).data :=
    basename_foldl_no_slash s.data [] (by simp)
  rw [basename_foldl_id _ [] hns]
  rfl

/-- Concrete archive for the C4 counterexample: everything is valid except that
image `img1`'s entry `a/x.png` is absent from the archive; a second image
`b/x.png` shares its basename and is present. -/
def epubC4 : Epub :=
  { containerPresent := true
    opfDir := ""
    title := ""
    author := ""
    manifest :=
      [⟨"d1", "doc.html", some "application/xhtml+xml"⟩,
        ⟨"img1", "a/x.png", some "image/png"⟩,
        ⟨"img2", "b/x.png", some "image/png"⟩]
    spine := ["d1"]
    docEntries := [("doc.html", [Node.img "a/x.png"])]
    imageEntries := [("b/x.png", [9])] }

/-- Counterexample to C4 as stated: in `epubC4` exactly one image entry is
missing and everything else is valid, and the conversion does succeed — but the
reference `a/x.png` to the *missing* image is not left unrewritten: the
basename fallback rewrites it to the *other* image's renamed path. -/
theorem missing_image_reference_can_be_rewritten :
    (extract_content_from_epub epubC4 "/imgs" "images" "out.md").result.isSome = true ∧
      rewriteSrc
          (extractImages epubC4 "images" "/imgs"
            [("img1", "a/x.png"), ("img2", "b/x.png")]).2 "a/x.png" =
        "/imgs/img2.png" ∧
      ("/imgs/img2.png" : String) ≠ "a/x.png" :=
  ⟨by decide, by decide, by decide⟩

/-- C4 as amended: if exactly one image item's archive entry is missing,
everything else is valid, and no other image item shares the missing item's
href or basename, then the conversion still returns a result, every other
image is extracted and written under its renamed file, and references to the
missing image — by href or by basename — are left unrewritten.  (Without the
no-shared-basename proviso the basename fallback can rewrite such a reference
to another image's path, as the counterexample shows.) -/
theorem missing_image_entry_graceful (e : Epub) (mdImgDir imageDir outPath : String)
    (cItems iItems : Dict) (badId badHref : String)
    (hc : e.containerPresent = true)
    (hclass : classifyItems e.manifest = some (cItems, iItems))
    (hbadMissing : dlookup e.imageEntries (joinPath e.opfDir badHref) = none)
    (hothers : ∀ p ∈ iItems, p ≠ (badId, badHref) →
      (dlookup e.imageEntries (joinPath e.opfDir p.2)).isSome = true)
    (hnocollide : ∀ p ∈ iItems, p ≠ (badId, badHref) →
      p.2 ≠ badHref ∧ basename p.2 ≠ badHref ∧
        p.2 ≠ basename badHref ∧ basename p.2 ≠ basename badHref) :
    (extract_content_from_epub e mdImgDir imageDir outPath).result.isSome = true ∧
      (∀ p ∈ iItems, p ≠ (badId, badHref) → ∀ bs : List Nat,
        dlookup e.imageEntries (joinPath e.opfDir p.2) = some bs →
        (joinDir imageDir (new_image_name p.1 p.2), some bs) ∈
          (extractImages e imageDir mdImgDir iItems).1) ∧
      dlookup (extractImages e imageDir mdImgDir iItems).2 badHref = none ∧
      dlookup (extractImages e imageDir mdImgDir iItems).2 (basename badHref) = none ∧
      rewriteSrc (extractImages e imageDir mdImgDir iItems).2 badHref = badHref ∧
      rewriteSrc (extractImages e imageDir mdImgDir iItems).2 (basename badHref) =
        basename badHref := by
  have hpres₁ : ∀ p ∈ iItems,
      (dlookup e.imageEntries (joinPath e.opfDir p.2)).isSome = true →
        p.2 ≠ badHref ∧ basename p.2 ≠ badHref := by
    intro p hp hps
    by_cases hpb : p = (badId, badHref)
    · rw [hpb] at hps
      simp [hbadMissing] at hps
    · exact ⟨(hnocollide p hp hpb).1, (hnocollide p hp hpb).2.1⟩
  have hpres₂ : ∀ p ∈ iItems,
      (dlookup e.imageEntries (joinPath e.opfDir p.2)).isSome = true →
        p.2 ≠ basename badHref ∧ basename p.2 ≠ basename badHref := by
    intro p hp hps
    by_cases hpb : p = (badId, badHref)
    · rw [hpb] at hps
      simp [hbadMissing] at hps
    · exact ⟨(hnocollide p hp hpb).2.2.1, (hnocollide p hp hpb).2.2.2⟩
  have hk₁ : dlookup (extractImages e imageDir mdImgDir iItems).2 badHref = none := by
    rw [extractImages, extractImagesGo_dlookup_preserved e imageDir mdImgDir iItems
      [] [] badHref hpres₁]
    rfl
  have hk₂ : dlookup (extractImages e imageDir mdImgDir iItems).2 (basename badHref) =
      none := by
    rw [extractImages, extractImagesGo_dlookup_preserved e imageDir mdImgDir iItems
      [] [] (basename badHref) hpres₂]
    rfl
  refine ⟨?_, ?_, hk₁, hk₂, ?_, ?_⟩
  · simp only [extract_content_from_epub, hc, hclass, if_true]
    rfl
  · intro p hp _ bs hbs
    have : (p.1, p.2) ∈ iItems := by rw [Prod.mk.eta]; exact hp
    exact extractImagesGo_write_present e imageDir mdImgDir iItems [] [] p.1 p.2 bs
      this hbs
  · unfold rewriteSrc
    by_cases hb : badHref ≠ ""
    · rw [if_pos hb, hk₁, hk₂]
      simp
    · rw [if_neg hb]
  · unfold rewriteSrc
    by_cases hb : basename badHref ≠ ""
    · rw [if_pos hb, basename_idem, hk₂]
      simp
    · rw [if_neg hb]

/-- Concrete archive for the C4 witness: image `img1` (`a/x.png`) has no
archive entry; image `img2` (`b/y.jpg`) is present and shares nothing with it. -/
def epubC4w : Epub :=
  { containerPresent := true
    opfDir := ""
    title := ""
    author := ""
    manifest :=
      [⟨"d1", "doc.html", some "application/xhtml+xml"⟩,
        ⟨"img1", "a/x.png", some "image/png"⟩,
        ⟨"img2", "b/y.jpg", some "image/jpeg"⟩]
    spine := ["d1"]
    docEntries := [("doc.html", [Node.img "a/x.png", Node.img "b/y.jpg"])]
    imageEntries := [("b/y.jpg", [5, 6])] }

/-- Witness for C4 (amended) at `epubC4w`. -/
theorem missing_image_entry_graceful_witness :
    (epubC4w.containerPresent = true ∧
        classifyItems epubC4w.manifest =
          some ([("d1", "doc.html")], [("img1", "a/x.png"), ("img2", "b/y.jpg")]) ∧
        dlookup epubC4w.imageEntries (joinPath epubC4w.opfDir "a/x.png") = none) ∧
      ((extract_content_from_epub epubC4w "/imgs" "images" "out.md").result.isSome = true ∧
        (∀ p ∈ ([("img1", "a/x.png"), ("img2", "b/y.jpg")] : Dict),
          p ≠ ("img1", "a/x.png") → ∀ bs : List Nat,
          dlookup epubC4w.imageEntries (joinPath epubC4w.opfDir p.2) = some bs →
          (joinDir "images" (new_image_name p.1 p.2), some bs) ∈
            (extractImages epubC4w "images" "/imgs"
              [("img1", "a/x.png"), ("img2", "b/y.jpg")]).1) ∧
        dlookup (extractImages epubC4w "images" "/imgs"
            [("img1", "a/x.png"), ("img2", "b/y.jpg")]).2 "a/x.png" = none ∧
        dlookup (extractImages epubC4w "images" "/imgs"
            [("img1", "a/x.png"), ("img2", "b/y.jpg")]).2 (basename "a/x.png") = none ∧
        rewriteSrc (extractImages epubC4w "images" "/imgs"
            [("img1", "a/x.png"), ("img2", "b/y.jpg")]).2 "a/x.png" = "a/x.png" ∧
        rewriteSrc (extractImages epubC4w "images" "/imgs"
            [("img1", "a/x.png"), ("img2", "b/y.jpg")]).2 (basename "a/x.png") =
          basename "a/x.png") :=
  ⟨⟨by decide, by decide, by decide⟩,
    missing_image_entry_graceful epubC4w "/imgs" "images" "out.md"
      [("d1", "doc.html")] [("img1", "a/x.png"), ("img2", "b/y.jpg")]
      "img1" "a/x.png" (by decide) (by decide) (by decide) (by decide) (by decide)⟩

/-! ## Claim C1: fragment order -/

/-- Classification of one manifest item as a content document (line 226). -/
def isContentItem (it : ManifestItem) : Bool :=
  match it.mediaType with
  | some mt => isContentMT mt
  | none => false

theorem filterMap_eq_map_getD {α β : Type} (l : List α) (f : α → Option β) (d : β)
    (h : ∀ x ∈ l, (f x).isSome = true) :
    l.filterMap f = l.map (fun x => (f x).getD d) := by
  induction l with
  | nil => rfl
  | cons x rest ih =>
      rcases Option.isSome_iff_exists.mp (h x (List.mem_cons_self _ _)) with ⟨v, hv⟩
      rw [List.filterMap_cons, hv, List.map_cons, hv]
      rw [ih (fun y hy => h y (List.mem_cons_of_mem _ hy))]
      rfl

/-- The content dict built by the manifest loop is the manifest in declaration
order, restricted to content items, provided identifiers are not duplicated
and none of them is already bound in the accumulator. -/
theorem classifyGo_content_dict (items : List ManifestItem) (c im c' im' : Dict)
    (hnd : (items.map ManifestItem.id).Nodup)
    (hfresh : ∀ it ∈ items, dlookup c it.id = none)
    (h : classifyGo items c im = some (c', im')) :
    c' = c ++ (items.filter isContentItem).map (fun it => (it.id, it.href)) := by
  induction items generalizing c im im' with
  | nil =>
      have : c = c' ∧ im = im' := by
        constructor <;> cases h <;> rfl
      rw [← this.1]
      simp
  | cons it rest ih =>
      cases hmt : it.mediaType with
      | none => rw [classifyGo_cons_none it rest c im hmt] at h; exact absurd h (by simp)
      | some mt =>
          have hnd' : (rest.map ManifestItem.id).Nodup := (List.nodup_cons.mp hnd).2
          have hidfresh : it.id ∉ rest.map ManifestItem.id := (List.nodup_cons.mp hnd).1
          by_cases h₁ : isContentMT mt = true
          · rw [classifyGo_cons_content it rest c im mt hmt h₁] at h
            have hci : isContentItem it = true := by
              unfold isContentItem
              rw [hmt]
              exact h₁
            have hins : dinsert c it.id it.href = c ++ [(it.id, it.href)] :=
              dinsert_eq_append c it.id it.href (hfresh it (List.mem_cons_self _ _))
            have hfresh' : ∀ r ∈ rest, dlookup (c ++ [(it.id, it.href)]) r.id = none := by
              intro r hr
              rw [dlookup_append, hfresh r (List.mem_cons_of_mem _ hr)]
              have : it.id ≠ r.id := by
                intro hid
                exact hidfresh (hid ▸ List.mem_map_of_mem ManifestItem.id hr)
              simp [dlookup, this]
            rw [hins] at h
            rw [ih _ _ _ hnd' hfresh' h]
            simp [List.filter_cons, hci]
          · rw [Bool.not_eq_true] at h₁
            have hci : isContentItem it = false := by
              unfold isContentItem
              rw [hmt]
              exact h₁
            by_cases h₂ : strStartsWith mt "image/" = true
            · rw [classifyGo_cons_image it rest c im mt hmt h₁ h₂] at h
              rw [ih _ _ _ hnd' (fun r hr => hfresh r (List.mem_cons_of_mem _ hr)) h]
              simp [List.filter_cons, hci]
            · rw [Bool.not_eq_true] at h₂
              rw [classifyGo_cons_other it rest c im mt hmt h₁ h₂] at h
              rw [ih _ _ _ hnd' (fun r hr => hfresh r (List.mem_cons_of_mem _ hr)) h]
              simp [List.filter_cons, hci]

/-- C1: with every referenced content document readable, a non-empty spine
makes the converted fragments appear in exactly itemref order restricted to
idrefs present among the content items, one fragment per such idref; an empty
spine makes them appear in manifest declaration order restricted to content
items (assuming, as the packaging format requires, no duplicated manifest
identifier). -/
theorem fragments_follow_spine_order (e : Epub) (image_map : Dict)
    (cItems iItems : Dict)
    (hclass : classifyItems e.manifest = some (cItems, iItems))
    (hids : (e.manifest.map ManifestItem.id).Nodup)
    (hdocs : ∀ p ∈ contentDocPaths cItems e.spine,
      (dlookup e.docEntries (joinPath e.opfDir p)).isSome = true) :
    (e.spine ≠ [] →
      convertedFragments e image_map cItems =
        (e.spine.filterMap (fun idref => dlookup cItems idref)).map
          (fun p => (convert_html_to_markdown e.docEntries e.opfDir p image_map).getD "")) ∧
    (e.spine = [] →
      convertedFragments e image_map cItems =
        (e.manifest.filter isContentItem).map
          (fun it =>
            (convert_html_to_markdown e.docEntries e.opfDir it.href image_map).getD "")) := by
  have hconv : ∀ p ∈ contentDocPaths cItems e.spine,
      (convert_html_to_markdown e.docEntries e.opfDir p image_map).isSome = true := by
    intro p hp
    rcases Option.isSome_iff_exists.mp (hdocs p hp) with ⟨nodes, hn⟩
    unfold convert_html_to_markdown
    rw [hn]
    rfl
  have hfm : convertedFragments e image_map cItems =
      (contentDocPaths cItems e.spine).map
        (fun p => (convert_html_to_markdown e.docEntries e.opfDir p image_map).getD "") :=
    filterMap_eq_map_getD _ _ "" hconv
  constructor
  · intro hne
    have hemp : e.spine.isEmpty = false := by
      cases hsp : e.spine with
      | nil => exact absurd hsp hne
      | cons a l => rfl
    rw [hfm]
    unfold contentDocPaths
    rw [hemp]
    rfl
  · intro hsp
    have hemp : e.spine.isEmpty = true := by rw [hsp]; rfl
    have hdict : cItems = [] ++ (e.manifest.filter isContentItem).map
        (fun it => (it.id, it.href)) :=
      classifyGo_content_dict e.manifest [] [] cItems iItems hids
        (fun _ _ => rfl) hclass
    rw [hfm]
    unfold contentDocPaths
    rw [hemp]
    show (cItems.map Prod.snd).map _ = _
    rw [hdict]
    simp only [List.nil_append, List.map_map]
    rfl

/-- Concrete archive for the C1 witness: two content documents with spine
order `[b, ghost, a]`, where `ghost` names no manifest item. -/
def epubC1 : Epub :=
  { containerPresent := true
    opfDir := ""
    title := ""
    author := ""
    manifest :=
      [⟨"a", "a.html", some "application/xhtml+xml"⟩,
        ⟨"b", "b.html", some "text/html"⟩,
        ⟨"i1", "x.png", some "image/png"⟩]
    spine := ["b", "ghost", "a"]
    docEntries := [("a.html", [Node.para "A"]), ("b.html", [Node.para "B"])]
    imageEntries := [("x.png", [1])] }

/-- Witness for C1 at `epubC1`: the hypotheses hold and the fragments follow
the spine order `b` before `a`, skipping the unknown idref `ghost`. -/
theorem fragments_follow_spine_order_witness :
    (classifyItems epubC1.manifest =
        some ([("a", "a.html"), ("b", "b.html")], [("i1", "x.png")]) ∧
      (epubC1.manifest.map ManifestItem.id).Nodup ∧
      (∀ p ∈ contentDocPaths [("a", "a.html"), ("b", "b.html")] epubC1.spine,
        (dlookup epubC1.docEntries (joinPath epubC1.opfDir p)).isSome = true)) ∧
    ((epubC1.spine ≠ [] →
      convertedFragments epubC1 [] [("a", "a.html"), ("b", "b.html")] =
        (epubC1.spine.filterMap
            (fun idref => dlookup [("a", "a.html"), ("b", "b.html")] idref)).map
          (fun p => (convert_html_to_markdown epubC1.docEntries epubC1.opfDir p []).getD "")) ∧
    (epubC1.spine = [] →
      convertedFragments epubC1 [] [("a", "a.html"), ("b", "b.html")] =
        (epubC1.manifest.filter isContentItem).map
          (fun it =>
            (convert_html_to_markdown epubC1.docEntries epubC1.opfDir it.href []).getD ""))) :=
  ⟨⟨by decide, by decide, by decide⟩,
    fragments_follow_spine_order epubC1 [] [("a", "a.html"), ("b", "b.html")]
      [("i1", "x.png")] (by decide) (by decide) (by decide)⟩

/-! ## Claim C8: header assembly -/

/-- C8: the pipeline's output is the header pieces followed by the fragments,
joined with single newline separators; the header holds a top-level title
heading exactly when the title is non-empty and a bold author line exactly when
the author is non-empty; with both empty the output is just the joined
fragments. -/
theorem output_header_assembly (e : Epub) (mdImgDir imageDir outPath : String)
    (cItems iItems : Dict)
    (hc : e.containerPresent = true)
    (hclass : classifyItems e.manifest = some (cItems, iItems)) :
    (extract_content_from_epub e mdImgDir imageDir outPath).result =
        some (String.intercalate "\n"
          (headerPieces e.title e.author ++
            convertedFragments e (extractImages e imageDir mdImgDir iItems).2 cItems)) ∧
      (e.title ≠ "" → headerPieces e.title e.author =
        ("# " ++ e.title ++ "\n") ::
          (if e.author ≠ "" then ["**作者：" ++ e.author ++ "**\n"] else [])) ∧
      (e.title = "" → headerPieces e.title e.author =
        (if e.author ≠ "" then ["**作者：" ++ e.author ++ "**\n"] else [])) ∧
      (e.title = "" → e.author = "" →
        (extract_content_from_epub e mdImgDir imageDir outPath).result =
          some (String.intercalate "\n"
            (convertedFragments e (extractImages e imageDir mdImgDir iItems).2 cItems))) := by
  have hres : (extract_content_from_epub e mdImgDir imageDir outPath).result =
      some (String.intercalate "\n"
        (headerPieces e.title e.author ++
          convertedFragments e (extractImages e imageDir mdImgDir iItems).2 cItems)) := by
    simp only [extract_content_from_epub, hc, hclass, if_true]
  refine ⟨hres, ?_, ?_, ?_⟩
  · intro ht
    unfold headerPieces
    rw [if_pos ht]
    rfl
  · intro ht
    unfold headerPieces
    rw [if_neg (by rw [ht]; exact fun hcon => hcon rfl)]
    rfl
  · intro ht ha
    rw [hres]
    unfold headerPieces
    rw [if_neg (by rw [ht]; exact fun hcon => hcon rfl),
      if_neg (by rw [ha]; exact fun hcon => hcon rfl)]
    rfl

/-- Concrete archive for the C8 witness: no title or creator metadata. -/
def epubC8 : Epub :=
  { containerPresent := true
    opfDir := ""
    title := ""
    author := ""
    manifest := [⟨"d1", "c.html", some "application/xhtml+xml"⟩]
    spine := ["d1"]
    docEntries := [("c.html", [Node.para "hello"])]
    imageEntries := [] }

/-- Witness for C8 at `epubC8`: empty metadata yields no title heading and no
author line — the output is exactly the joined fragments. -/
theorem output_header_assembly_witness :
    (epubC8.containerPresent = true ∧
        classifyItems epubC8.manifest = some ([("d1", "c.html")], [])) ∧
      ((extract_content_from_epub epubC8 "/imgs" "images" "out.md").result =
          some (String.intercalate "\n"
            (headerPieces epubC8.title epubC8.author ++
              convertedFragments epubC8 (extractImages epubC8 "images" "/imgs" []).2
                [("d1", "c.html")])) ∧
        (epubC8.title ≠ "" → headerPieces epubC8.title epubC8.author =
          ("# " ++ epubC8.title ++ "\n") ::
            (if epubC8.author ≠ "" then ["**作者：" ++ epubC8.author ++ "**\n"] else [])) ∧
        (epubC8.title = "" → headerPieces epubC8.title epubC8.author =
          (if epubC8.author ≠ "" then ["**作者：" ++ epubC8.author ++ "**\n"] else [])) ∧
        (epubC8.title = "" → epubC8.author = "" →
          (extract_content_from_epub epubC8 "/imgs" "images" "out.md").result =
            some (String.intercalate "\n"
              (convertedFragments epubC8 (extractImages epubC8 "images" "/imgs" []).2
                [("d1", "c.html")])))) :=
  ⟨⟨by decide, by decide⟩,
    output_header_assembly epubC8 "/imgs" "images" "out.md" [("d1", "c.html")] []
      (by decide) (by decide)⟩

end EpubToMd
